import Mathlib

/-
  Verification development for smatch_struct_assignment.c: the
  struct-assignment expansion engine of the smatch static analyzer.

  The C source is shallowly embedded:
  * sparse type descriptors become `CType` (struct identity, i.e. C symbol
    pointer equality between struct declarations, is modelled by a numeric id);
  * sparse expressions become `CExpr`;
  * the symbolic state store becomes a list of `SmState` entries;
  * the global re-entrancy counter `__in_fake_assign` is passed explicitly,
    and every function that mutates it returns its final value together with
    the minimum value it reached, so that the push/pop discipline is provable;
  * the recursive re-entry through `__split_expr` is modelled with a fuel
    parameter (a nested invocation consumes one unit of fuel).
-/

/-- Sparse type descriptors as used by this file: base (scalar) types,
pointers (whose pointee, `get_real_base_type`, may be NULL), struct
declarations (a declaration id together with the ordered member list), arrays,
and anything else.  A struct member is its identifier (NULL for anonymous
members) paired with the member's resolved base type (which may be NULL).
Identity between struct declarations (C symbol pointer equality) is modelled
by equality of the declaration id. -/
inductive CType where
  | base (name : String)
  | ptr (pointee : Option CType)
  | cstruct (id : Nat) (fields : List (Option String × Option CType))
  | array (elem : Option CType)
  | other

/-- A struct member: identifier (NULL when anonymous) and resolved type. -/
abbrev CField := Option String × Option CType

/-- The struct descriptor returned by `get_struct_type`: the declaration id
and the declared member list (`struct_type->symbol_list`). -/
abbrev StructTy := Nat × List CField

/-- Sparse expressions as used by this file: variable references (with their
declared type), unary operators (`&` and `*`), member accesses
(`member_expression`: base, accessor character, member identifier), casts
(stripped by `strip_expr`), integer values, the fake unknown-value expression
produced by `unknown_value_expression`, assignments, and the indeterminate
value read from the uninitialized `right_member` local (reachable only when
the copy mode lies outside the enumeration). -/
inductive CExpr where
  | var (name : String) (ty : Option CType)
  | preop (op : Char) (operand : CExpr)
  | member (base : CExpr) (op : Char) (ident : Option String)
  | cast (ty : Option CType) (e : CExpr)
  | value (v : Int) (ty : Option CType)
  | unknown (ty : Option CType)
  | assign (lhs rhs : CExpr)
  | uninit

/-- Modelled from the spec: `strip_expr` (smatch_helper.c, not in src/)
normalizes an expression by removing cast wrappers. -/
def strip_expr : CExpr → CExpr
  | CExpr.cast _ e => strip_expr e
  | e => e

/-- Finds the type of the named member in a struct's member list. -/
def lookupField : List CField → String → Option CType
  | [], _ => none
  | (n, t) :: rest, id => if n = some id then t else lookupField rest id

/-- Modelled from the spec: `get_type` (the sparse/smatch type resolver, not
in src/) resolves an expression's static type; it returns NULL when the type
cannot be resolved.  An address-of has pointer type, a dereference unwraps one
pointer level, and a member access has the member's declared type. -/
def get_type : CExpr → Option CType
  | CExpr.var _ ty => ty
  | CExpr.unknown ty => ty
  | CExpr.value _ ty => ty
  | CExpr.cast ty _ => ty
  | CExpr.preop op e =>
    if op = '&' then some (CType.ptr (get_type e))
    else if op = '*' then
      match get_type e with
      | some (CType.ptr p) => p
      | _ => none
    else none
  | CExpr.member base _ ident =>
    match ident with
    | none => none
    | some id =>
      match get_type base with
      | some (CType.cstruct _ flds) => lookupField flds id
      | _ => none
  | CExpr.assign _ _ => none
  | CExpr.uninit => none

/-- Modelled from the spec: `is_pointer` (smatch helper, not in src/) tests
whether the expression's resolved type is a pointer type. -/
def is_pointer (e : CExpr) : Bool :=
  match get_type e with
  | some (CType.ptr _) => true
  | _ => false

/-- `get_struct_type` from the source: resolve the expression's type, unwrap
one pointer level, and return the struct descriptor when the result is a
struct type, NULL otherwise.  The NULL expression resolves to NULL. -/
def get_struct_type (e : Option CExpr) : Option StructTy :=
  match e with
  | none => none
  | some e =>
    match get_type e with
    | none => none
    | some (CType.ptr p) =>
      match p with
      | some (CType.cstruct i flds) => some (i, flds)
      | _ => none
    | some (CType.cstruct i flds) => some (i, flds)
    | some _ => none

/-- The repeated source idiom `if (x->type == EXPR_PREOP && x->op == '&')
x = strip_expr(x->unop);` that removes a leading address-of. -/
def ampStrip (e : CExpr) : CExpr :=
  match e with
  | CExpr.preop '&' u => strip_expr u
  | e => e

/-- The repeated source idiom `if (is_pointer(x)) { x = deref_expression(x);
op = '*'; }`: returns the (possibly dereferenced) base together with the
accessor character used for member construction. -/
def accessBase (e : CExpr) : CExpr × Char :=
  if is_pointer e then (CExpr.preop '*' e, '*') else (e, '.')

/-- Modelled from the spec: `unknown_value_expression` (not in src/) builds
the unknown-value placeholder typed to match the given expression. -/
def unknown_value_expression (e : CExpr) : CExpr :=
  CExpr.unknown (get_type e)

/-- `remove_addr` from the source: strip, then remove a leading address-of. -/
def remove_addr (e : CExpr) : CExpr :=
  let e := strip_expr e
  match e with
  | CExpr.preop '&' u => strip_expr u
  | e => e

/-- Modelled from the spec: `expr_to_var` (smatch_helper.c, not in src/)
derives the canonical dotted/arrow-joined path name of a variable or member
chain, and fails (NULL) on anything else. -/
def expr_to_var : CExpr → Option String
  | CExpr.var n _ => some n
  | CExpr.member (CExpr.preop '*' p) '*' (some f) =>
    (expr_to_var p).map (fun s => s ++ "->" ++ f)
  | CExpr.member b '.' (some f) =>
    (expr_to_var b).map (fun s => s ++ "." ++ f)
  | _ => none

/-- Reads position `i` of a C string modelled as a `List Char`; positions at
or past the end read the NUL terminator. -/
def charAt (s : List Char) (i : Nat) : Char := s.getD i (Char.ofNat 0)

/-- C `strncmp` on NUL-free strings modelled as `List Char` (the end of the
list plays the role of the terminator): compares at most `n` characters as
unsigned values, returning -1, 0 or 1. -/
def strncmp : List Char → List Char → Nat → Int
  | _, _, 0 => 0
  | [], [], _ + 1 => 0
  | [], _ :: _, _ + 1 => -1
  | _ :: _, [], _ + 1 => 1
  | a :: as, b :: bs, n + 1 =>
    if a.toNat < b.toNat then -1
    else if b.toNat < a.toNat then 1
    else strncmp as bs n

/-- C `strcmp` on NUL-free strings modelled as `List Char`. -/
def strcmp : List Char → List Char → Int
  | [], [] => 0
  | [], _ :: _ => -1
  | _ :: _, [] => 1
  | a :: as, b :: bs =>
    if a.toNat < b.toNat then -1
    else if b.toNat < a.toNat then 1
    else strcmp as bs

/-- The owner tag of the extra-value analysis facility (`SMATCH_EXTRA`); the
concrete value is immaterial, only its distinctness from other owners. -/
def SMATCH_EXTRA : Nat := 1

/-- An entry of the symbolic state store: owner tag and path name. -/
structure SmState where
  owner : Nat
  name : String

/-- The scan loop of `known_struct_member_states`: entries of other owners
are skipped; an entry comparing less than the target over the target's length
is passed over; a prefix-equal entry whose next character is `.` or `-` (the
source repeats the `.` test) is a hit; a strictly greater entry ends the scan
with a miss. -/
def ksmsLoop (q : List Char) (len : Nat) : List SmState → Bool
  | [] => false
  | sm :: rest =>
    if sm.owner ≠ SMATCH_EXTRA then ksmsLoop q len rest
    else
      let cmp := strncmp sm.name.data q len
      if cmp < 0 then ksmsLoop q len rest
      else if cmp = 0 then
        if charAt sm.name.data len = '.' ∨ charAt sm.name.data len = '-' ∨
            charAt sm.name.data len = '.' then true
        else ksmsLoop q len rest
      else false

/-- `known_struct_member_states` from the source: strip a leading address-of,
derive the variable path name (fail closed to 0 when impossible), and scan the
current state list for an entry whose name extends the target name by a path
separator. -/
def known_struct_member_states (expr : CExpr) (slist : List SmState) : Bool :=
  match expr_to_var (ampStrip expr) with
  | none => false
  | some name => ksmsLoop name.data name.data.length slist

/-- Follows the spec's words (for comparison with the source scan): `child`
is a strict descendant path of `query` when `query` is a proper prefix of
`child` and the next character is a path separator. -/
def isStrictDescendant (child query : List Char) : Bool :=
  decide (child.take query.length = query) &&
    (charAt child query.length = '.' ∨ charAt child query.length = '-')

/-- Modelled from the spec: the copy-mode enumeration (smatch.h, not in
src/).  Direct assignment; the values are distinct, their order immaterial. -/
def COPY_NORMAL : Nat := 0

/-- Modelled from the spec: bulk-clear (memset) copy mode. -/
def COPY_MEMSET : Nat := 1

/-- Modelled from the spec: bulk-copy (memcpy/memmove) copy mode. -/
def COPY_MEMCPY : Nat := 2

/-- `get_matching_member_expr` from the source: NULL for an anonymous member;
NULL when the right side does not resolve to a struct type or resolves to a
struct declaration other than the left one; otherwise the matching member
access over the right side, build after removing a leading address-of and
dereferencing once when the right side is pointer-typed. -/
def get_matching_member_expr (left_type : StructTy) (right : Option CExpr)
    (left_member : CField) : Option CExpr :=
  match left_member.1 with
  | none => none
  | some ident =>
    match get_struct_type right, right with
    | some (j, _), some r0 =>
      if j ≠ left_type.1 then none
      else
        let r1 := ampStrip r0
        some (CExpr.member (accessBase r1).1 (accessBase r1).2 (some ident))
    | _, _ => none

/-- The `switch (mode)` statement of `__struct_members_copy` that resolves
`right_member`.  The outer `Option` records whether any case of the switch
assigned `right_member` (`none` = the local stays uninitialized, as the
switch has no default case); the inner `Option` is the C NULL. -/
def modeSwitch (mode : Nat) (struct_type : StructTy) (right : Option CExpr)
    (fld : CField) : Option (Option CExpr) :=
  if mode = COPY_NORMAL ∨ mode = COPY_MEMCPY then
    some (get_matching_member_expr struct_type right fld)
  else if mode = COPY_MEMSET then
    some right
  else none

/-- Whether the member's resolved type is an array (`get_real_base_type`
yields a SYM_ARRAY), in which case the loop skips the member. -/
def isArrayField (fld : CField) : Bool :=
  match fld.2 with
  | some (CType.array _) => true
  | _ => false

/-- Result of running a piece of the engine: the synthetic assignments
submitted to `__split_expr` in order, the final value of the
`__in_fake_assign` counter, and the minimum value the counter reached. -/
structure SmcResult where
  subs : List CExpr
  guard : Int
  minG : Int

/-- The resolved `right_member` of one loop iteration of
`__struct_members_copy`: the value the mode switch assigned, with NULL
replaced by the unknown-value placeholder typed to the left member, and the
no-case-hit outcome left as the indeterminate value. -/
def rmOf (mode : Nat) (st : StructTy) (right : Option CExpr) (left_member : CExpr)
    (fld : CField) : CExpr :=
  match modeSwitch mode st right fld with
  | some (some r) => r
  | some none => unknown_value_expression left_member
  | none => CExpr.uninit

/-- The synthetic assignment one loop iteration of `__struct_members_copy`
builds for a member: `assign_expression(left_member, right_member)`. -/
def fieldAssign (mode : Nat) (st : StructTy) (left : CExpr) (op : Char)
    (right : Option CExpr) (fld : CField) : CExpr :=
  CExpr.assign (CExpr.member left op fld.1)
    (rmOf mode st right (CExpr.member left op fld.1) fld)

/-- The member loop of `__struct_members_copy`.  `split` is the analyzer
entry point invoked, under the raised counter, on each synthetic assignment;
it receives the counter and returns the nested submissions together with the
counter as the nested analysis left it. -/
def smcFields (split : Int → CExpr → SmcResult) (mode : Nat) (st : StructTy)
    (left : CExpr) (op : Char) (right : Option CExpr) :
    Int → List CField → SmcResult
  | g, [] => ⟨[], g, g⟩
  | g, fld :: rest =>
    if isArrayField fld then smcFields split mode st left op right g rest
    else
      let a := fieldAssign mode st left op right fld
      let nested := split (g + 1) a
      let res := smcFields split mode st left op right (nested.guard - 1) rest
      ⟨a :: (nested.subs ++ res.subs), res.guard, min g (min nested.minG res.minG)⟩

/-- The body of `__struct_members_copy` for a given analyzer entry point:
return at once while the counter is active; strip both operands; return when
the left side is not struct-typed; otherwise iterate the declared members,
dereferencing a pointer-typed left side once. -/
def smcBody (split : Int → CExpr → SmcResult) (g : Int) (mode : Nat)
    (left0 : CExpr) (right0 : Option CExpr) : SmcResult :=
  if g ≠ 0 then ⟨[], g, g⟩
  else
    let left1 := strip_expr left0
    let right1 := right0.map strip_expr
    match get_struct_type (some left1) with
    | none => ⟨[], g, g⟩
    | some st =>
      smcFields split mode st (accessBase left1).1 (accessBase left1).2 right1 g st.2

/-- `__struct_members_copy` from the source, with the re-entry through
`__split_expr` unfolded up to the given fuel: a nested invocation (from the
hook that `__split_expr` fires on assignments) runs with one unit of fuel
less and with the counter it finds. -/
def __struct_members_copy : Nat → Int → Nat → CExpr → Option CExpr → SmcResult
  | 0, g, _, _, _ => ⟨[], g, g⟩
  | fuel + 1, g, mode, left0, right0 =>
    smcBody
      (fun g' e =>
        match e with
        | CExpr.assign l r => __struct_members_copy fuel g' COPY_NORMAL l (some r)
        | _ => ⟨[], g', g'⟩)
      g mode left0 right0

/-- `__fake_struct_member_assignments` from the source: expand a direct
assignment field by field. -/
def __fake_struct_member_assignments (fuel : Nat) (g : Int) (e : CExpr) : SmcResult :=
  match e with
  | CExpr.assign l r => __struct_members_copy fuel g COPY_NORMAL l (some r)
  | _ => ⟨[], g, g⟩

/-- Modelled from the spec: `__split_expr` (smatch_flow.c, not in src/) is
the generic expression analyzer; its only effect relevant to this engine is
firing the assignment hook, i.e. `__fake_struct_member_assignments`, on
assignment expressions. -/
def __split_expr (fuel : Nat) (g : Int) (e : CExpr) : SmcResult :=
  __fake_struct_member_assignments fuel g e

/-- An analyzer entry point that performs no nested analysis at all: used to
state that expansion is exactly one level deep. -/
def nullSplit : Int → CExpr → SmcResult := fun g _ => ⟨[], g, g⟩

/-- `match_memset` from the source: argument 0 is the destination (stripped,
then a leading address-of removed), argument 1 the fill value. -/
def match_memset (fuel : Nat) (g : Int) (buf val : CExpr) : SmcResult :=
  __struct_members_copy fuel g COPY_MEMSET (remove_addr (strip_expr buf)) (some val)

/-- `match_memcpy` from the source: both pointer arguments lose a leading
address-of. -/
def match_memcpy (fuel : Nat) (g : Int) (dest src : CExpr) : SmcResult :=
  __struct_members_copy fuel g COPY_MEMCPY (remove_addr dest) (some (remove_addr src))

/-- `match_memcpy_unknown` from the source: bulk copy from an unmodeled
source (NULL). -/
def match_memcpy_unknown (fuel : Nat) (g : Int) (dest : CExpr) : SmcResult :=
  __struct_members_copy fuel g COPY_MEMCPY (remove_addr dest) none

/-- Whether an optional struct descriptor carries the given declaration id. -/
def structIdIs (o : Option StructTy) (i : Nat) : Bool :=
  match o with
  | some (j, _) => j = i
  | none => false

/-- Configuration stream tokens (sparse tokenizer, interface per the spec):
stream begin/end markers, identifiers, numbers, anything else. -/
inductive Token where
  | streamBegin
  | streamEnd
  | ident (s : String)
  | number (s : String)
  | other
deriving DecidableEq

/-- Models libc `atoi` on sparse number tokens: an optional sign followed by
leading digits (the exact value is immaterial to the claims). -/
def digitsVal : List Char → Nat → Nat
  | [], acc => acc
  | c :: cs, acc => if c.isDigit then digitsVal cs (acc * 10 + (c.toNat - 48)) else acc

/-- Models libc `atoi` (see `digitsVal`). -/
def atoi (s : String) : Int :=
  match s.data with
  | '-' :: cs => -(digitsVal cs 0 : Int)
  | cs => (digitsVal cs 0 : Int)

/-- Whether a token is an identifier. -/
def tokIsIdent : Token → Bool
  | Token.ident _ => true
  | _ => false

/-- Whether a token is a number. -/
def tokIsNumber : Token → Bool
  | Token.number _ => true
  | _ => false

/-- The read loop of `register_clears_param`.  Returns the registered
(function name, argument index) pairs in order, together with whether
`clear_token_alloc` was reached (true only when the loop ran to the stream
end marker); any token deviating from the grammar returns at once. -/
def clearsLoop : List Token → List (String × Int) × Bool
  | [] => ([], false)
  | Token.streamEnd :: _ => ([], true)
  | Token.ident f :: Token.number n :: rest =>
    let r := clearsLoop rest
    ((f, atoi n) :: r.1, r.2)
  | Token.ident _ :: _ => ([], false)
  | _ :: _ => ([], false)

/-- `register_clears_param` from the source.  `projectIsNone` models
`option_project == PROJ_NONE`; `tokens` models `get_tokens_file` (NULL when
the configuration resource is missing).  The result lists the registered
hooks and records whether `clear_token_alloc` ran. -/
def register_clears_param (projectIsNone : Bool) (tokens : Option (List Token)) :
    List (String × Int) × Bool :=
  if projectIsNone then ([], false)
  else
    match tokens with
    | none => ([], false)
    | some [] => ([], false)
    | some (t :: ts) =>
      match t with
      | Token.streamBegin => clearsLoop ts
      | _ => ([], false)

/-- The token rendering of a configuration pair list: `IDENT NUMBER` per
pair. -/
def pairTokens : List (String × String) → List Token
  | [] => []
  | (f, n) :: ps => Token.ident f :: Token.number n :: pairTokens ps

/-- The registrations a well-formed pair list should produce. -/
def regsOf (ps : List (String × String)) : List (String × Int) :=
  ps.map (fun p => (p.1, atoi p.2))

/-- Demo struct type: `struct point { int x; int y; };`. -/
def pointT : CType :=
  CType.cstruct 0 [(some "x", some (CType.base "int")), (some "y", some (CType.base "int"))]

/-- Demo struct with an array member between two scalars:
`struct buf { int x; char a[16]; int y; };`. -/
def bufT : CType :=
  CType.cstruct 2
    [(some "x", some (CType.base "int")),
     (some "a", some (CType.array (some (CType.base "char")))),
     (some "y", some (CType.base "int"))]

/-- Demo nested structs: `struct outer { struct point in_; int z; };`. -/
def outerT : CType :=
  CType.cstruct 3 [(some "in_", some pointT), (some "z", some (CType.base "int"))]

/-- Demo variable `struct point p;`. -/
def pVar : CExpr := CExpr.var "p" (some pointT)

/-- Demo variable `struct point q;`. -/
def qVar : CExpr := CExpr.var "q" (some pointT)

/-- Demo state list `["foo", "foo.bar", "fooz"]`, all owned by the
extra-value facility, ascending by name. -/
def demoList : List SmState :=
  [⟨SMATCH_EXTRA, "foo"⟩, ⟨SMATCH_EXTRA, "foo.bar"⟩, ⟨SMATCH_EXTRA, "fooz"⟩]

/-- Unfolding of `__struct_members_copy` at positive fuel: its body is
`smcBody` with the analyzer entry point at one unit of fuel less. -/
theorem smc_succ (fuel : Nat) (g : Int) (mode : Nat) (l : CExpr) (r : Option CExpr) :
    __struct_members_copy (fuel + 1) g mode l r = smcBody (__split_expr fuel) g mode l r := by
  have h : (fun g' e =>
      match e with
      | CExpr.assign a b => __struct_members_copy fuel g' COPY_NORMAL a (some b)
      | _ => (⟨[], g', g'⟩ : SmcResult)) = __split_expr fuel := by
    funext g' e
    cases e <;> rfl
  rw [__struct_members_copy, h]

/-- While the counter is nonzero, `__struct_members_copy` is a no-op. -/
theorem smc_inactive (fuel : Nat) (g : Int) (mode : Nat) (l : CExpr) (r : Option CExpr)
    (hg : g ≠ 0) : __struct_members_copy fuel g mode l r = ⟨[], g, g⟩ := by
  cases fuel with
  | zero => rfl
  | succ fuel => rw [smc_succ]; simp [smcBody, hg]

/-- While the counter is nonzero, the analyzer entry point triggers no
expansion. -/
theorem split_inactive (fuel : Nat) (g : Int) (e : CExpr) (hg : g ≠ 0) :
    __split_expr fuel g e = ⟨[], g, g⟩ := by
  cases e <;> simp [__split_expr, __fake_struct_member_assignments, smc_inactive, hg]

/-- The member loop preserves the counter and keeps it nonnegative whenever
the analyzer entry point it is given does. -/
theorem smcFields_inv (split : Int → CExpr → SmcResult)
    (hsp : ∀ g e, (split g e).guard = g)
    (hsm : ∀ g e, 0 ≤ g → 0 ≤ (split g e).minG)
    (mode : Nat) (st : StructTy) (left : CExpr) (op : Char) (right : Option CExpr) :
    ∀ (flds : List CField) (g : Int),
      (smcFields split mode st left op right g flds).guard = g ∧
      (0 ≤ g → 0 ≤ (smcFields split mode st left op right g flds).minG) := by
  intro flds
  induction flds with
  | nil => intro g; simp [smcFields]
  | cons fld rest ih =>
    intro g
    by_cases ha : isArrayField fld
    · simpa [smcFields, ha] using ih g
    · have hg1 : (split (g + 1) (fieldAssign mode st left op right fld)).guard = g + 1 :=
        hsp _ _
      have hrec := ih ((split (g + 1) (fieldAssign mode st left op right fld)).guard - 1)
      constructor
      · simp only [smcFields, ha]
        simp only [Bool.false_eq_true, if_false]
        rw [hrec.1, hg1]
        omega
      · intro hg0
        simp only [smcFields, ha]
        simp only [Bool.false_eq_true, if_false]
        have h2 : 0 ≤ (split (g + 1) (fieldAssign mode st left op right fld)).minG :=
          hsm _ _ (by omega)
        have h3 : 0 ≤ (smcFields split mode st left op right
            ((split (g + 1) (fieldAssign mode st left op right fld)).guard - 1) rest).minG := by
          apply hrec.2
          omega
        simp only [le_min_iff]
        exact ⟨hg0, h2, h3⟩

/-- `__struct_members_copy` restores the counter on every exit path and, from
a nonnegative counter, never drives it negative. -/
theorem smc_inv : ∀ (fuel : Nat) (g : Int) (mode : Nat) (l : CExpr) (r : Option CExpr),
    (__struct_members_copy fuel g mode l r).guard = g ∧
    (0 ≤ g → 0 ≤ (__struct_members_copy fuel g mode l r).minG) := by
  intro fuel
  induction fuel with
  | zero => intro g mode l r; simp [__struct_members_copy]
  | succ fuel ih =>
    intro g mode l r
    rw [smc_succ]
    have hsp : ∀ g' e, (__split_expr fuel g' e).guard = g' := by
      intro g' e
      cases e <;> simp [__split_expr, __fake_struct_member_assignments] <;>
        exact (ih _ _ _ _).1
    have hsm : ∀ g' e, 0 ≤ g' → 0 ≤ (__split_expr fuel g' e).minG := by
      intro g' e hg'
      cases e <;> simp [__split_expr, __fake_struct_member_assignments] <;>
        first
        | exact hg'
        | exact (ih _ _ _ _).2 hg'
    by_cases hg : g ≠ 0
    · simp [smcBody, hg]
    · simp only [smcBody, hg, if_false]
      cases hst : get_struct_type (some (strip_expr l)) with
      | none => simp
      | some st => exact smcFields_inv _ hsp hsm _ _ _ _ _ _ _

/-- When the analyzer entry point is a no-op at counter `g + 1`, the member
loop at counter `g` behaves as with the null entry point: expansion of the
submitted assignments contributes nothing. -/
theorem smcFields_null_split (split : Int → CExpr → SmcResult) (g : Int)
    (mode : Nat) (st : StructTy) (left : CExpr) (op : Char) (right : Option CExpr)
    (hs : ∀ e, split (g + 1) e = ⟨[], g + 1, g + 1⟩) :
    ∀ flds, smcFields split mode st left op right g flds =
      smcFields nullSplit mode st left op right g flds := by
  intro flds
  induction flds with
  | nil => rfl
  | cons fld rest ih =>
    by_cases ha : isArrayField fld
    · simp [smcFields, ha, ih]
    · simp only [smcFields, ha, Bool.false_eq_true, if_false, hs, nullSplit]
      rw [show g + 1 - 1 = g by omega]
      rw [ih]

/-- When the analyzer entry point is a no-op at counter 1, the member loop at
counter 0 submits exactly one assignment per non-array member, in declaration
order, and restores the counter. -/
theorem smcFields_eval (split : Int → CExpr → SmcResult)
    (mode : Nat) (st : StructTy) (left : CExpr) (op : Char) (right : Option CExpr)
    (hs : ∀ e, split 1 e = ⟨[], 1, 1⟩) :
    ∀ flds, smcFields split mode st left op right 0 flds =
      ⟨flds.filterMap (fun fld =>
          if isArrayField fld then none
          else some (fieldAssign mode st left op right fld)), 0, 0⟩ := by
  intro flds
  induction flds with
  | nil => simp [smcFields]
  | cons fld rest ih =>
    by_cases ha : isArrayField fld
    · simp [smcFields, ha, ih]
    · simp only [smcFields, ha, Bool.false_eq_true, if_false, zero_add, hs]
      rw [show (1 : Int) - 1 = 0 by omega]
      rw [ih]
      simp [ha]

/-- The analyzer entry point at one unit less fuel is a no-op at counter 1. -/
theorem split_one_inactive (fuel : Nat) :
    ∀ e, __split_expr fuel 1 e = ⟨[], 1, 1⟩ :=
  fun e => split_inactive fuel 1 e (by omega)

/-- Evaluation of `__struct_members_copy` at counter 0 on a struct-typed
destination: one submission per non-array member, counter restored, counter
never below 0. -/
theorem smc_eval (fuel : Nat) (mode : Nat) (l : CExpr) (r : Option CExpr)
    (st : StructTy) (hst : get_struct_type (some (strip_expr l)) = some st) :
    __struct_members_copy (fuel + 1) 0 mode l r =
      ⟨st.2.filterMap (fun fld =>
          if isArrayField fld then none
          else some (fieldAssign mode st (accessBase (strip_expr l)).1
            (accessBase (strip_expr l)).2 (r.map strip_expr) fld)), 0, 0⟩ := by
  rw [smc_succ]
  simp only [smcBody, ne_eq, not_true_eq_false, if_false, hst]
  exact smcFields_eval _ _ _ _ _ _ (split_one_inactive fuel) st.2

/-- `filterMap` with a skip-or-keep function is `filter` then `map`. -/
theorem filterMap_skip_map {α β : Type _} (p : α → Bool) (f : α → β) :
    ∀ l : List α,
      (l.filterMap fun a => if p a then none else some (f a)) =
        (l.filter fun a => !p a).map f := by
  intro l
  induction l with
  | nil => rfl
  | cons a l ih =>
    by_cases hp : p a <;> simp [hp, ih]

/-- `filterMap` only looks at the function's values on the list members. -/
theorem filterMap_congr_mem {α β : Type _} (f h : α → Option β) :
    ∀ l : List α, (∀ a ∈ l, f a = h a) → l.filterMap f = l.filterMap h := by
  intro l
  induction l with
  | nil => intro _; rfl
  | cons a l ih =>
    intro he
    rw [List.filterMap_cons, List.filterMap_cons, he a (by simp),
      ih (fun x hx => he x (by simp [hx]))]

/-- C1: for a direct assignment `a = b` where both sides resolve to the same
declared struct type, the expansion core submits exactly one synthetic
assignment per non-array member, in declaration order, of the form
`a.fi = b.fi` (arrow access when the respective side is reached through a
pointer); members whose own type is an array are skipped entirely. -/
theorem direct_struct_assignment_expands_fieldwise
    (fuel : Nat) (a b : CExpr) (i : Nat) (flds flds2 : List CField)
    (hL : get_struct_type (some (strip_expr a)) = some (i, flds))
    (hR : get_struct_type (some (strip_expr b)) = some (i, flds2))
    (hNamed : ∀ fld ∈ flds, (fld : CField).1.isSome = true) :
    (__fake_struct_member_assignments (fuel + 1) 0 (CExpr.assign a b)).subs =
      (flds.filter (fun fld => !isArrayField fld)).map (fun fld =>
        CExpr.assign
          (CExpr.member (accessBase (strip_expr a)).1 (accessBase (strip_expr a)).2 fld.1)
          (CExpr.member (accessBase (ampStrip (strip_expr b))).1
            (accessBase (ampStrip (strip_expr b))).2 fld.1)) := by
  show (__struct_members_copy (fuel + 1) 0 COPY_NORMAL a (some b)).subs = _
  rw [smc_eval fuel COPY_NORMAL a (some b) (i, flds) hL]
  rw [← filterMap_skip_map]
  apply filterMap_congr_mem
  intro fld hfld
  rcases Option.isSome_iff_exists.mp (hNamed fld hfld) with ⟨ident, hid⟩
  simp [fieldAssign, rmOf, modeSwitch, COPY_NORMAL, COPY_MEMCPY,
    get_matching_member_expr, hid, hR]

/-- Witness for C1 on `struct buf { int x; char a[16]; int y; } b, c; b = c;`:
the hypotheses hold, the expansion is the two scalar member copies in
declaration order, and exactly two submissions are produced. -/
theorem direct_struct_assignment_expands_fieldwise_witness :
    (get_struct_type (some (strip_expr (CExpr.var "b" (some bufT)))) =
      some (2, [(some "x", some (CType.base "int")),
                (some "a", some (CType.array (some (CType.base "char")))),
                (some "y", some (CType.base "int"))])) ∧
    (∀ fld ∈ [((some "x" : Option String), some (CType.base "int")),
              (some "a", some (CType.array (some (CType.base "char")))),
              (some "y", some (CType.base "int"))], (fld : CField).1.isSome = true) ∧
    (__fake_struct_member_assignments 1 0
        (CExpr.assign (CExpr.var "b" (some bufT)) (CExpr.var "c" (some bufT)))).subs =
      (([((some "x" : Option String), some (CType.base "int")),
         (some "a", some (CType.array (some (CType.base "char")))),
         (some "y", some (CType.base "int"))].filter
          (fun fld => !isArrayField fld)).map (fun fld =>
        CExpr.assign
          (CExpr.member (accessBase (strip_expr (CExpr.var "b" (some bufT)))).1
            (accessBase (strip_expr (CExpr.var "b" (some bufT)))).2 fld.1)
          (CExpr.member
            (accessBase (ampStrip (strip_expr (CExpr.var "c" (some bufT))))).1
            (accessBase (ampStrip (strip_expr (CExpr.var "c" (some bufT))))).2 fld.1))) ∧
    (__fake_struct_member_assignments 1 0
        (CExpr.assign (CExpr.var "b" (some bufT)) (CExpr.var "c" (some bufT)))).subs.length = 2 :=
  ⟨rfl, by decide,
    direct_struct_assignment_expands_fieldwise 0
      (CExpr.var "b" (some bufT)) (CExpr.var "c" (some bufT)) 2 _ _ rfl rfl (by decide),
    rfl⟩

/-- C2: while the re-entrancy counter is nonzero, an invocation of the
expansion core submits nothing; consequently expansion is exactly one level
deep — running the core with the real analyzer re-entry produces the same
submissions as running it with an analyzer that performs no nested analysis
at all. -/
theorem active_guard_suppresses_nested_expansion
    (fuel : Nat) (g : Int) (mode : Nat) (l : CExpr) (r : Option CExpr) :
    (g ≠ 0 → (__struct_members_copy fuel g mode l r).subs = []) ∧
    (__struct_members_copy (fuel + 1) 0 mode l r).subs =
      (smcBody nullSplit 0 mode l r).subs := by
  constructor
  · intro hg
    rw [smc_inactive fuel g mode l r hg]
  · rw [smc_succ]
    simp only [smcBody, ne_eq, not_true_eq_false, if_false]
    cases hst : get_struct_type (some (strip_expr l)) with
    | none => rfl
    | some st =>
      exact congrArg SmcResult.subs
        (smcFields_null_split (__split_expr fuel) 0 mode st
          (accessBase (strip_expr l)).1 (accessBase (strip_expr l)).2
          (r.map strip_expr)
          (fun e => split_inactive fuel (0 + 1) e (by omega)) st.2)

/-- Witness for C2 on nested structs
`struct outer { struct point in_; int z; } o, o2; o = o2;`: a nonzero counter
yields no submissions, and at counter zero the expansion equals the
nesting-free expansion (the struct-typed member `in_` is not recursively
expanded). -/
theorem active_guard_suppresses_nested_expansion_witness :
    (1 : Int) ≠ 0 ∧
    (__struct_members_copy 2 1 COPY_NORMAL (CExpr.var "o" (some outerT))
      (some (CExpr.var "o2" (some outerT)))).subs = [] ∧
    (__struct_members_copy 3 0 COPY_NORMAL (CExpr.var "o" (some outerT))
        (some (CExpr.var "o2" (some outerT)))).subs =
      (smcBody nullSplit 0 COPY_NORMAL (CExpr.var "o" (some outerT))
        (some (CExpr.var "o2" (some outerT)))).subs :=
  ⟨by decide,
    (active_guard_suppresses_nested_expansion 2 1 COPY_NORMAL
      (CExpr.var "o" (some outerT)) (some (CExpr.var "o2" (some outerT)))).1 (by decide),
    (active_guard_suppresses_nested_expansion 2 1 COPY_NORMAL
      (CExpr.var "o" (some outerT)) (some (CExpr.var "o2" (some outerT)))).2⟩

/-- C7: the re-entrancy counter follows strict push/pop discipline: every
invocation of the expansion core returns it to its pre-call value (on every
exit path, the early returns included, since the statement quantifies over
all inputs), and from a nonnegative start it never goes negative. -/
theorem guard_strict_push_pop (fuel : Nat) (g : Int) (mode : Nat) (l : CExpr)
    (r : Option CExpr) :
    (__struct_members_copy fuel g mode l r).guard = g ∧
    (0 ≤ g → 0 ≤ (__struct_members_copy fuel g mode l r).minG) :=
  smc_inv fuel g mode l r

/-- Witness for C7 at counter 0 on `p = q`. -/
theorem guard_strict_push_pop_witness :
    (0 : Int) ≤ 0 ∧
    (__struct_members_copy 2 0 COPY_NORMAL pVar (some qVar)).guard = 0 ∧
    0 ≤ (__struct_members_copy 2 0 COPY_NORMAL pVar (some qVar)).minG :=
  ⟨by decide, (guard_strict_push_pop 2 0 COPY_NORMAL pVar (some qVar)).1,
    (guard_strict_push_pop 2 0 COPY_NORMAL pVar (some qVar)).2 (by decide)⟩

/-- C3: under the direct or bulk-copy mode, when the source does not resolve
to the destination's declared struct type (non-struct type, or a different
declaration) the member pairer returns NULL for every member, an anonymous
member is never paired either, and every submitted right-hand side is the
unknown-value placeholder typed to the left member — never a member access
into the mismatched source. -/
theorem mismatched_source_falls_back_to_unknown
    (fuel : Nat) (mode : Nat) (a : CExpr) (r0 : Option CExpr) (i : Nat)
    (flds : List CField)
    (hmode : mode = COPY_NORMAL ∨ mode = COPY_MEMCPY)
    (hL : get_struct_type (some (strip_expr a)) = some (i, flds))
    (hMis : structIdIs (get_struct_type (Option.map strip_expr r0)) i = false) :
    (∀ fld : CField,
      get_matching_member_expr (i, flds) (Option.map strip_expr r0) fld = none) ∧
    (∀ (st : StructTy) (r : Option CExpr) (ty : Option CType),
      get_matching_member_expr st r (none, ty) = none) ∧
    (__struct_members_copy (fuel + 1) 0 mode a r0).subs =
      (flds.filter (fun fld => !isArrayField fld)).map (fun fld =>
        CExpr.assign
          (CExpr.member (accessBase (strip_expr a)).1 (accessBase (strip_expr a)).2 fld.1)
          (unknown_value_expression
            (CExpr.member (accessBase (strip_expr a)).1
              (accessBase (strip_expr a)).2 fld.1))) := by
  have hnone : ∀ fld : CField,
      get_matching_member_expr (i, flds) (Option.map strip_expr r0) fld = none := by
    intro fld
    cases hf : fld.1 with
    | none => simp [get_matching_member_expr, hf]
    | some ident =>
      cases r0 with
      | none => simp [get_matching_member_expr, hf, get_struct_type]
      | some b =>
        cases hg : get_struct_type (some (strip_expr b)) with
        | none => simp [get_matching_member_expr, hf, hg]
        | some st' =>
          obtain ⟨j, f2⟩ := st'
          have hmis' : structIdIs (get_struct_type (some (strip_expr b))) i = false := by
            simpa using hMis
          rw [hg] at hmis'
          have hj : ¬(j = i) := by simpa [structIdIs] using hmis'
          simp [get_matching_member_expr, hf, hg, hj]
  refine ⟨hnone, fun st r ty => by simp [get_matching_member_expr], ?_⟩
  rw [smc_eval fuel mode a r0 (i, flds) hL]
  rw [← filterMap_skip_map]
  apply filterMap_congr_mem
  intro fld hfld
  rcases hmode with h | h <;>
    simp [fieldAssign, rmOf, modeSwitch, h, COPY_NORMAL, COPY_MEMCPY, hnone fld]

/-- Witness for C3 on `memcpy`-mode expansion of `struct point p` from a
plain `int z`: the hypotheses hold and every right-hand side is the unknown
placeholder. -/
theorem mismatched_source_falls_back_to_unknown_witness :
    (COPY_MEMCPY = COPY_NORMAL ∨ COPY_MEMCPY = COPY_MEMCPY) ∧
    (get_struct_type (some (strip_expr pVar)) =
      some (0, [(some "x", some (CType.base "int")), (some "y", some (CType.base "int"))])) ∧
    (structIdIs (get_struct_type (Option.map strip_expr
      (some (CExpr.var "z" (some (CType.base "int")))))) 0 = false) ∧
    ((∀ fld : CField,
      get_matching_member_expr
        (0, [(some "x", some (CType.base "int")), (some "y", some (CType.base "int"))])
        (Option.map strip_expr (some (CExpr.var "z" (some (CType.base "int"))))) fld = none) ∧
     (∀ (st : StructTy) (r : Option CExpr) (ty : Option CType),
      get_matching_member_expr st r (none, ty) = none) ∧
     (__struct_members_copy 1 0 COPY_MEMCPY pVar
        (some (CExpr.var "z" (some (CType.base "int"))))).subs =
      (([((some "x" : Option String), some (CType.base "int")),
         (some "y", some (CType.base "int"))].filter
            (fun fld => !isArrayField fld)).map (fun fld =>
        CExpr.assign
          (CExpr.member (accessBase (strip_expr pVar)).1
            (accessBase (strip_expr pVar)).2 fld.1)
          (unknown_value_expression
            (CExpr.member (accessBase (strip_expr pVar)).1
              (accessBase (strip_expr pVar)).2 fld.1))))) :=
  ⟨by decide, rfl, rfl,
    mismatched_source_falls_back_to_unknown 0 COPY_MEMCPY pVar
      (some (CExpr.var "z" (some (CType.base "int")))) 0
      [(some "x", some (CType.base "int")), (some "y", some (CType.base "int"))]
      (by decide) rfl rfl⟩

/-- C4: under the bulk-clear mode (the memset idiom), the right-hand side of
every synthetic member assignment is the very fill-value expression, reused
for each member with no per-member pairing. -/
theorem memset_fill_value_reused
    (fuel : Nat) (buf val : CExpr) (i : Nat) (flds : List CField)
    (hL : get_struct_type (some (strip_expr (remove_addr (strip_expr buf)))) =
      some (i, flds))
    (hv : strip_expr val = val) :
    (match_memset (fuel + 1) 0 buf val).subs =
      (flds.filter (fun fld => !isArrayField fld)).map (fun fld =>
        CExpr.assign
          (CExpr.member (accessBase (strip_expr (remove_addr (strip_expr buf)))).1
            (accessBase (strip_expr (remove_addr (strip_expr buf)))).2 fld.1)
          val) := by
  unfold match_memset
  rw [smc_eval fuel COPY_MEMSET (remove_addr (strip_expr buf)) (some val) (i, flds) hL]
  rw [← filterMap_skip_map]
  apply filterMap_congr_mem
  intro fld hfld
  simp [fieldAssign, rmOf, modeSwitch, COPY_MEMSET, COPY_NORMAL, COPY_MEMCPY, hv]

/-- Witness for C4 on `memset(&p, 0, sizeof(p))`: both submissions carry the
fill value 0. -/
theorem memset_fill_value_reused_witness :
    (get_struct_type (some (strip_expr (remove_addr (strip_expr (CExpr.preop '&' pVar))))) =
      some (0, [(some "x", some (CType.base "int")), (some "y", some (CType.base "int"))])) ∧
    (strip_expr (CExpr.value 0 (some (CType.base "int"))) =
      CExpr.value 0 (some (CType.base "int"))) ∧
    (match_memset 1 0 (CExpr.preop '&' pVar) (CExpr.value 0 (some (CType.base "int")))).subs =
      (([((some "x" : Option String), some (CType.base "int")),
         (some "y", some (CType.base "int"))].filter
          (fun fld => !isArrayField fld)).map (fun fld =>
        CExpr.assign
          (CExpr.member
            (accessBase (strip_expr (remove_addr (strip_expr (CExpr.preop '&' pVar))))).1
            (accessBase (strip_expr (remove_addr (strip_expr (CExpr.preop '&' pVar))))).2
            fld.1)
          (CExpr.value 0 (some (CType.base "int"))))) :=
  ⟨rfl, rfl,
    memset_fill_value_reused 0 (CExpr.preop '&' pVar)
      (CExpr.value 0 (some (CType.base "int"))) 0
      [(some "x", some (CType.base "int")), (some "y", some (CType.base "int"))]
      rfl rfl⟩

/-- C10: for every copy mode in the enumeration, the mode switch assigns
`right_member` on every member iteration, so the uninitialized-value branch
of the dispatch (the switch has no default case) is unreachable under that
precondition. -/
theorem mode_dispatch_initializes_right_member
    (mode : Nat) (st : StructTy) (right : Option CExpr) (fld : CField)
    (h : mode = COPY_NORMAL ∨ mode = COPY_MEMCPY ∨ mode = COPY_MEMSET) :
    (modeSwitch mode st right fld).isSome = true := by
  rcases h with h | h | h <;>
    simp [modeSwitch, h, COPY_NORMAL, COPY_MEMCPY, COPY_MEMSET]

/-- Witness for C10 at the bulk-clear mode. -/
theorem mode_dispatch_initializes_right_member_witness :
    (COPY_MEMSET = COPY_NORMAL ∨ COPY_MEMSET = COPY_MEMCPY ∨ COPY_MEMSET = COPY_MEMSET) ∧
    (modeSwitch COPY_MEMSET (0, []) none (none, none)).isSome = true :=
  ⟨by decide,
    mode_dispatch_initializes_right_member COPY_MEMSET (0, []) none (none, none) (by decide)⟩

/-- The read loop distributes over a well-formed list of pairs followed by
anything: all pairs are registered and the remainder is processed next. -/
theorem clearsLoop_append (ps : List (String × String)) (ts : List Token) :
    clearsLoop (pairTokens ps ++ ts) =
      (regsOf ps ++ (clearsLoop ts).1, (clearsLoop ts).2) := by
  induction ps with
  | nil => simp [pairTokens, regsOf]
  | cons p ps ih =>
    obtain ⟨f, n⟩ := p
    simp [pairTokens, regsOf, clearsLoop, ih]

/-- A token that is neither an identifier nor the end marker halts the read
loop at once, without reaching the token release. -/
theorem clearsLoop_not_ident (bad : Token) (rest : List Token)
    (hid : tokIsIdent bad = false) (hend : bad ≠ Token.streamEnd) :
    clearsLoop (bad :: rest) = ([], false) := by
  cases bad with
  | streamBegin => rfl
  | streamEnd => exact absurd rfl hend
  | ident s => simp [tokIsIdent] at hid
  | number s => rfl
  | other => rfl

/-- A non-number token after an identifier halts the read loop at once,
without registering the pending identifier and without reaching the token
release. -/
theorem clearsLoop_ident_not_number (f : String) (bad : Token) (rest : List Token)
    (hnum : tokIsNumber bad = false) :
    clearsLoop (Token.ident f :: bad :: rest) = ([], false) := by
  cases bad with
  | streamBegin => rfl
  | streamEnd => rfl
  | ident s => rfl
  | number s => simp [tokIsNumber] at hnum
  | other => rfl

/-- C8: a malformed token in the clearing-function configuration stream halts
registration exactly there — every pair before the malformed token is
registered, nothing at or after it is, and the registrar still returns a
value (no error propagates).  Both malformed positions are covered: where an
identifier is expected and where a number is expected. -/
theorem malformed_config_halts_registration
    (ps : List (String × String)) (bad : Token) (rest : List Token) (f : String)
    (hid : tokIsIdent bad = false) (hend : bad ≠ Token.streamEnd)
    (hnum : tokIsNumber bad = false) :
    register_clears_param false
        (some (Token.streamBegin :: (pairTokens ps ++ bad :: rest))) =
      (regsOf ps, false) ∧
    register_clears_param false
        (some (Token.streamBegin :: (pairTokens ps ++ Token.ident f :: bad :: rest))) =
      (regsOf ps, false) := by
  constructor
  · simp [register_clears_param, clearsLoop_append, clearsLoop_not_ident bad rest hid hend]
  · simp [register_clears_param, clearsLoop_append, clearsLoop_ident_not_number f bad rest hnum]

/-- Witness for C8: one good pair, then a malformed token; only the good pair
is registered, in both malformed positions. -/
theorem malformed_config_halts_registration_witness :
    tokIsIdent Token.other = false ∧ Token.other ≠ Token.streamEnd ∧
    tokIsNumber Token.other = false ∧
    (register_clears_param false
        (some (Token.streamBegin ::
          (pairTokens [("kfree", "1")] ++ Token.other :: [Token.streamEnd]))) =
      (regsOf [("kfree", "1")], false) ∧
     register_clears_param false
        (some (Token.streamBegin ::
          (pairTokens [("kfree", "1")] ++ Token.ident "g" :: Token.other :: [Token.streamEnd]))) =
      (regsOf [("kfree", "1")], false)) :=
  ⟨by decide, by decide, by decide,
    malformed_config_halts_registration [("kfree", "1")] Token.other [Token.streamEnd] "g"
      (by decide) (by decide) (by decide)⟩

/-- Counterexample for C9: on the malformed stream `BEGIN OTHER` the
registrar returns without reaching `clear_token_alloc` — the parsed token
resources are not released. -/
theorem cleanup_skipped_on_malformed_stream :
    (register_clears_param false (some [Token.streamBegin, Token.other])).2 = false := rfl

/-- C9 as amended: the registrar releases the token resources exactly when
the scan runs through to the end marker; on a stream with a malformed token
it returns without releasing them. -/
theorem cleanup_reached_iff_stream_wellformed
    (ps : List (String × String)) (rest : List Token) :
    (register_clears_param false
        (some (Token.streamBegin :: (pairTokens ps ++ Token.streamEnd :: rest)))).2 = true ∧
    (∀ (bad : Token) (rest2 : List Token),
      tokIsIdent bad = false → bad ≠ Token.streamEnd →
      (register_clears_param false
        (some (Token.streamBegin :: (pairTokens ps ++ bad :: rest2)))).2 = false) := by
  constructor
  · simp [register_clears_param, clearsLoop_append, clearsLoop]
  · intro bad rest2 hid hend
    simp [register_clears_param, clearsLoop_append,
      clearsLoop_not_ident bad rest2 hid hend]

/-- Witness for C9's amended claim: the well-formed stream releases, the
malformed one does not. -/
theorem cleanup_reached_iff_stream_wellformed_witness :
    (register_clears_param false
        (some (Token.streamBegin :: (pairTokens [("kfree", "1")] ++ Token.streamEnd :: [])))).2
      = true ∧
    tokIsIdent Token.other = false ∧ Token.other ≠ Token.streamEnd ∧
    (register_clears_param false
        (some (Token.streamBegin :: (pairTokens [("kfree", "1")] ++ Token.other :: [])))).2
      = false :=
  ⟨(cleanup_reached_iff_stream_wellformed [("kfree", "1")] []).1,
    by decide, by decide,
    (cleanup_reached_iff_stream_wellformed [("kfree", "1")] []).2 Token.other []
      (by decide) (by decide)⟩

/-- Characters with equal code points are equal. -/
theorem char_toNat_inj {a b : Char} (h : a.toNat = b.toNat) : a = b := by
  rw [← Char.ofNat_toNat a, ← Char.ofNat_toNat b, h]

/-- `strncmp` returns 0 exactly when the two strings agree on their first `n`
characters. -/
theorem strncmp_eq_zero_iff :
    ∀ (n : Nat) (a b : List Char), strncmp a b n = 0 ↔ a.take n = b.take n := by
  intro n
  induction n with
  | zero => intro a b; simp [strncmp]
  | succ n ih =>
    intro a b
    cases a with
    | nil =>
      cases b with
      | nil => simp [strncmp]
      | cons b bs => simp [strncmp]
    | cons a as =>
      cases b with
      | nil => simp [strncmp]
      | cons b bs =>
        simp only [strncmp, List.take_succ_cons]
        by_cases h1 : a.toNat < b.toNat
        · have hne : a ≠ b := by intro he; subst he; omega
          simp [h1, hne]
        · by_cases h2 : b.toNat < a.toNat
          · have hne : a ≠ b := by intro he; subst he; omega
            simp [h1, h2, hne]
          · have heq : a = b := char_toNat_inj (by omega)
            subst heq
            simp [h1, h2, ih]

/-- `strncmp` only inspects the first `n` characters of its second string. -/
theorem strncmp_right_take_congr :
    ∀ (n : Nat) (a b c : List Char), b.take n = c.take n →
      strncmp a b n = strncmp a c n := by
  intro n
  induction n with
  | zero => intro a b c _; simp [strncmp]
  | succ n ih =>
    intro a b c htake
    cases b with
    | nil =>
      cases c with
      | nil => rfl
      | cons c cs => simp at htake
    | cons b bs =>
      cases c with
      | nil => simp at htake
      | cons c cs =>
        simp only [List.take_succ_cons, List.cons.injEq] at htake
        obtain ⟨hbc, htail⟩ := htake
        subst hbc
        cases a with
        | nil => rfl
        | cons a as =>
          simp only [strncmp]
          by_cases h1 : a.toNat < b.toNat
          · simp [h1]
          · by_cases h2 : b.toNat < a.toNat
            · simp [h1, h2]
            · simp [h1, h2, ih as bs cs htail]

/-- A strictly positive `strncmp` verdict forces a strictly positive full
comparison: if the first difference inside the window already makes the first
string greater, the whole string is greater. -/
theorem strncmp_pos_strcmp :
    ∀ (n : Nat) (a b : List Char), 0 < strncmp a b n → 0 < strcmp a b := by
  intro n
  induction n with
  | zero => intro a b h; simp [strncmp] at h
  | succ n ih =>
    intro a b h
    cases a with
    | nil =>
      cases b with
      | nil => simp [strncmp] at h
      | cons b bs => simp [strncmp] at h
    | cons a as =>
      cases b with
      | nil => simp [strcmp]
      | cons b bs =>
        simp only [strncmp] at h
        simp only [strcmp]
        by_cases h1 : a.toNat < b.toNat
        · simp [h1] at h
        · by_cases h2 : b.toNat < a.toNat
          · simp [h1, h2]
          · simp only [h1, h2, if_false] at h ⊢
            exact ih as bs h

/-- Soundness of the scan loop: a hit exhibits an extra-owned entry whose
name is a strict descendant path of the query. -/
theorem ksmsLoop_sound (q : List Char) :
    ∀ slist, ksmsLoop q q.length slist = true →
      ∃ sm ∈ slist, sm.owner = SMATCH_EXTRA ∧ isStrictDescendant sm.name.data q = true := by
  intro slist
  induction slist with
  | nil => intro h; simp [ksmsLoop] at h
  | cons sm rest ih =>
    intro h
    simp only [ksmsLoop] at h
    by_cases h1 : sm.owner ≠ SMATCH_EXTRA
    · rw [if_pos h1] at h
      obtain ⟨sm', hmem, hsm'⟩ := ih h
      exact ⟨sm', by simp [hmem], hsm'⟩
    · rw [if_neg h1] at h
      push_neg at h1
      by_cases h2 : strncmp sm.name.data q q.length < 0
      · rw [if_pos h2] at h
        obtain ⟨sm', hmem, hsm'⟩ := ih h
        exact ⟨sm', by simp [hmem], hsm'⟩
      · rw [if_neg h2] at h
        by_cases h3 : strncmp sm.name.data q q.length = 0
        · rw [if_pos h3] at h
          by_cases h4 : charAt sm.name.data q.length = '.' ∨
              charAt sm.name.data q.length = '-' ∨ charAt sm.name.data q.length = '.'
          · refine ⟨sm, by simp, h1, ?_⟩
            have htake : sm.name.data.take q.length = q := by
              have h5 := (strncmp_eq_zero_iff q.length sm.name.data q).mp h3
              simpa [List.take_length] using h5
            simp only [isStrictDescendant, htake]
            rcases h4 with h | h | h <;> simp [h]
          · rw [if_neg h4] at h
            obtain ⟨sm', hmem, hsm'⟩ := ih h
            exact ⟨sm', by simp [hmem], hsm'⟩
        · rw [if_neg h3] at h
          simp at h

/-- Completeness of the scan loop on an ascending state list: an extra-owned
strict-descendant entry is always detected. -/
theorem ksmsLoop_complete (q : List Char) :
    ∀ slist, List.Pairwise (fun x y : SmState => strcmp x.name.data y.name.data ≤ 0) slist →
      (∃ sm ∈ slist, sm.owner = SMATCH_EXTRA ∧ isStrictDescendant sm.name.data q = true) →
      ksmsLoop q q.length slist = true := by
  intro slist
  induction slist with
  | nil => intro _ h; simp at h
  | cons sm rest ih =>
    intro hsort hex
    rw [List.pairwise_cons] at hsort
    obtain ⟨hhead, hrest⟩ := hsort
    simp only [ksmsLoop]
    by_cases h1 : sm.owner ≠ SMATCH_EXTRA
    · rw [if_pos h1]
      apply ih hrest
      obtain ⟨sm', hmem, hE, hdesc⟩ := hex
      rcases List.mem_cons.mp hmem with heq | hmem'
      · rw [heq] at hE; exact absurd hE h1
      · exact ⟨sm', hmem', hE, hdesc⟩
    · rw [if_neg h1]
      push_neg at h1
      by_cases h2 : strncmp sm.name.data q q.length < 0
      · rw [if_pos h2]
        apply ih hrest
        obtain ⟨sm', hmem, hE, hdesc⟩ := hex
        rcases List.mem_cons.mp hmem with heq | hmem'
        · exfalso
          rw [heq] at hdesc
          simp only [isStrictDescendant, Bool.and_eq_true, decide_eq_true_eq] at hdesc
          have h0 : strncmp sm.name.data q q.length = 0 := by
            apply (strncmp_eq_zero_iff _ _ _).mpr
            simp [hdesc.1, List.take_length]
          omega
        · exact ⟨sm', hmem', hE, hdesc⟩
      · rw [if_neg h2]
        by_cases h3 : strncmp sm.name.data q q.length = 0
        · rw [if_pos h3]
          by_cases h4 : charAt sm.name.data q.length = '.' ∨
              charAt sm.name.data q.length = '-' ∨ charAt sm.name.data q.length = '.'
          · rw [if_pos h4]
          · rw [if_neg h4]
            apply ih hrest
            obtain ⟨sm', hmem, hE, hdesc⟩ := hex
            rcases List.mem_cons.mp hmem with heq | hmem'
            · exfalso
              rw [heq] at hdesc
              simp only [isStrictDescendant, Bool.and_eq_true, decide_eq_true_eq] at hdesc
              rcases hdesc.2 with h | h
              · exact h4 (Or.inl h)
              · exact h4 (Or.inr (Or.inl h))
            · exact ⟨sm', hmem', hE, hdesc⟩
        · rw [if_neg h3]
          exfalso
          have hpos : 0 < strncmp sm.name.data q q.length := by omega
          obtain ⟨sm', hmem, hE, hdesc⟩ := hex
          simp only [isStrictDescendant, Bool.and_eq_true, decide_eq_true_eq] at hdesc
          rcases List.mem_cons.mp hmem with heq | hmem'
          · rw [heq] at hdesc
            have h0 : strncmp sm.name.data q q.length = 0 := by
              apply (strncmp_eq_zero_iff _ _ _).mpr
              simp [hdesc.1, List.take_length]
            omega
          · have hle := hhead sm' hmem'
            have hcongr : strncmp sm.name.data sm'.name.data q.length =
                strncmp sm.name.data q q.length := by
              apply strncmp_right_take_congr
              simp [hdesc.1, List.take_length]
            have hstr : 0 < strcmp sm.name.data sm'.name.data :=
              strncmp_pos_strcmp q.length _ _ (by rw [hcongr]; exact hpos)
            omega

/-- An extra-owned entry sorting strictly above the query (over the query's
length) ends the scan: entries after it are never inspected. -/
theorem ksmsLoop_stop (q : List Char) (len : Nat) (sm : SmState)
    (hE : sm.owner = SMATCH_EXTRA) (hgt : 0 < strncmp sm.name.data q len) :
    ∀ (pre post : List SmState),
      ksmsLoop q len (pre ++ sm :: post) = ksmsLoop q len (pre ++ [sm]) := by
  intro pre
  induction pre with
  | nil =>
    intro post
    have hL : ksmsLoop q len (sm :: post) = false := by
      simp only [ksmsLoop]
      rw [if_neg (by simp [hE]), if_neg (by omega), if_neg (by omega)]
    have hR : ksmsLoop q len [sm] = false := by
      simp only [ksmsLoop]
      rw [if_neg (by simp [hE]), if_neg (by omega), if_neg (by omega)]
    simp [hL, hR]
  | cons p pre ih =>
    intro post
    simp only [List.cons_append, ksmsLoop]
    by_cases h1 : p.owner ≠ SMATCH_EXTRA
    · rw [if_pos h1, if_pos h1]
      exact ih post
    · rw [if_neg h1, if_neg h1]
      by_cases h2 : strncmp p.name.data q len < 0
      · rw [if_pos h2, if_pos h2]
        exact ih post
      · rw [if_neg h2, if_neg h2]
        by_cases h3 : strncmp p.name.data q len = 0
        · rw [if_pos h3, if_pos h3]
          by_cases h4 : charAt p.name.data len = '.' ∨ charAt p.name.data len = '-' ∨
              charAt p.name.data len = '.'
          · rw [if_pos h4, if_pos h4]
          · rw [if_neg h4, if_neg h4]
            exact ih post
        · rw [if_neg h3, if_neg h3]

/-- Counterexample for C5 as stated: an entry owned by another analysis
facility (owner 0, not the extra-value owner) whose name is a strict
descendant of the query is not detected — the scan skips entries of other
owners, so "some entry's name is a strict descendant" does not imply a hit. -/
theorem prefilter_misses_other_owner_descendant :
    isStrictDescendant ("foo.bar" : String).data ("foo" : String).data = true ∧
    (0 : Nat) ≠ SMATCH_EXTRA ∧
    known_struct_member_states (CExpr.var "foo" none)
      [⟨0, "foo.bar"⟩] = false := by decide

/-- C5 as amended: on a state sequence ascending by path name, the prefilter
returns true exactly when some entry owned by the extra-value facility has a
name that is a strict descendant path of the query name (prefix-equal and
followed by `.` or `-`); an extra-owned entry sorting strictly after the
query ends the scan, entries beyond it never being inspected; on
`["foo", "foo.bar", "fooz"]` querying `"foo"` yields true and querying
`"fooz"` yields false. -/
theorem prefilter_descendant_scan
    (expr : CExpr) (q : String) (slist : List SmState)
    (hq : expr_to_var (ampStrip expr) = some q)
    (hsort : List.Pairwise (fun x y : SmState => strcmp x.name.data y.name.data ≤ 0) slist) :
    (known_struct_member_states expr slist = true ↔
      ∃ sm ∈ slist, sm.owner = SMATCH_EXTRA ∧
        isStrictDescendant sm.name.data q.data = true) ∧
    (∀ (pre post : List SmState) (sm : SmState), sm.owner = SMATCH_EXTRA →
      0 < strncmp sm.name.data q.data q.data.length →
      ksmsLoop q.data q.data.length (pre ++ sm :: post) =
        ksmsLoop q.data q.data.length (pre ++ [sm])) ∧
    known_struct_member_states (CExpr.var "foo" none) demoList = true ∧
    known_struct_member_states (CExpr.var "fooz" none) demoList = false := by
  refine ⟨?_, fun pre post sm hE hgt => ksmsLoop_stop q.data q.data.length sm hE hgt pre post,
    by decide, by decide⟩
  unfold known_struct_member_states
  rw [hq]
  constructor
  · exact ksmsLoop_sound q.data slist
  · exact ksmsLoop_complete q.data slist hsort

/-- Witness for C5's amended claim at the query `"foo"` over the demo list. -/
theorem prefilter_descendant_scan_witness :
    expr_to_var (ampStrip (CExpr.var "foo" none)) = some "foo" ∧
    List.Pairwise (fun x y : SmState => strcmp x.name.data y.name.data ≤ 0) demoList ∧
    ((known_struct_member_states (CExpr.var "foo" none) demoList = true ↔
      ∃ sm ∈ demoList, sm.owner = SMATCH_EXTRA ∧
        isStrictDescendant sm.name.data ("foo" : String).data = true) ∧
     (∀ (pre post : List SmState) (sm : SmState), sm.owner = SMATCH_EXTRA →
      0 < strncmp sm.name.data ("foo" : String).data ("foo" : String).data.length →
      ksmsLoop ("foo" : String).data ("foo" : String).data.length (pre ++ sm :: post) =
        ksmsLoop ("foo" : String).data ("foo" : String).data.length (pre ++ [sm])) ∧
     known_struct_member_states (CExpr.var "foo" none) demoList = true ∧
     known_struct_member_states (CExpr.var "fooz" none) demoList = false) :=
  ⟨rfl, by decide,
    prefilter_descendant_scan (CExpr.var "foo" none) "foo" demoList rfl (by decide)⟩

/-- Counterexample for C6 as stated: with the store already holding
field-level knowledge for `p` (entry `p.x` owned by the extra-value
facility, so the prefilter reports true), the expansion core still submits
both per-field assignments — it does not skip. -/
theorem expansion_proceeds_despite_known_states :
    known_struct_member_states pVar [⟨SMATCH_EXTRA, "p.x"⟩] = true ∧
    (__struct_members_copy 1 0 COPY_NORMAL pVar (some pVar)).subs =
      [CExpr.assign (CExpr.member pVar '.' (some "x")) (CExpr.member pVar '.' (some "x")),
       CExpr.assign (CExpr.member pVar '.' (some "y")) (CExpr.member pVar '.' (some "y"))] :=
  ⟨by decide, rfl⟩

/-- C6 as amended: the file defines the state-knowledge prefilter, but the
expansion core never consults it — even when the prefilter reports complete
field-level knowledge for the destination, the expansion core still submits
the per-field synthetic assignments. -/
theorem expansion_independent_of_state_knowledge
    (slist : List SmState)
    (hknown : known_struct_member_states pVar slist = true) :
    (__struct_members_copy 1 0 COPY_NORMAL pVar (some pVar)).subs =
      [CExpr.assign (CExpr.member pVar '.' (some "x")) (CExpr.member pVar '.' (some "x")),
       CExpr.assign (CExpr.member pVar '.' (some "y")) (CExpr.member pVar '.' (some "y"))] :=
  rfl

/-- Witness for C6's amended claim at the store `[p.x]`. -/
theorem expansion_independent_of_state_knowledge_witness :
    known_struct_member_states pVar [⟨SMATCH_EXTRA, "p.x"⟩] = true ∧
    (__struct_members_copy 1 0 COPY_NORMAL pVar (some pVar)).subs =
      [CExpr.assign (CExpr.member pVar '.' (some "x")) (CExpr.member pVar '.' (some "x")),
       CExpr.assign (CExpr.member pVar '.' (some "y")) (CExpr.member pVar '.' (some "y"))] :=
  ⟨by decide, expansion_independent_of_state_knowledge [⟨SMATCH_EXTRA, "p.x"⟩] (by decide)⟩
